import Mathlib

/-
Verification of the scrape-then-extract pipeline implemented in
src/app/api/scrape/route.ts (functions scrapeWebsite, extractEventsWithGPT,
POST).  The TypeScript code is shallowly embedded: JSON values become the
inductive JsVal, the rendered DOM becomes the inductive Dom (a first-child /
next-sibling encoding of a node forest), and the platform functions that the
code calls but does not define (the WHATWG URL hostname parser, JSON.parse,
and the Date string parser) are taken as explicit function parameters, so
every theorem quantifies over their behaviour.  Exceptions thrown by the
embedded code are represented by Option: a result of none marks a thrown
exception at that boundary.
-/

/-- A JSON value, as produced by JSON.parse and carried through the request
body and the model reply.  JavaScript `undefined` is represented by `Option`
at use sites (`none` = absent), never by a JsVal constructor, matching the
fact that JSON.parse cannot produce `undefined`.  Objects are association
lists; the embedding assumes parsed objects carry no duplicate keys. -/
inductive JsVal where
  | vstr (s : String)
  | vnum (n : Int)
  | vbool (b : Bool)
  | vnull
  | varr (elems : List JsVal)
  | vobj (fields : List (String × JsVal))

/-- JavaScript truthiness for the values representable as JsVal: empty
strings, zero, false and null are falsy; arrays and objects are truthy. -/
def jsTruthy : JsVal → Bool
  | JsVal.vstr s => decide (s ≠ "")
  | JsVal.vnum n => decide (n ≠ 0)
  | JsVal.vbool b => b
  | JsVal.vnull => false
  | JsVal.varr _ => true
  | JsVal.vobj _ => true

/-- Property access `v[k]` in the embedded code.  Outer `none` marks a thrown
TypeError (property access on null); `some none` is `undefined` (absent key,
or access on a primitive or array); `some (some w)` is the stored value. -/
def jsGetField : JsVal → String → Option (Option JsVal)
  | JsVal.vnull, _ => none
  | JsVal.vobj fs, k => some (fs.lookup k)
  | _, _ => some none

/-- The `a || d` defaulting idiom of the source applied to a possibly absent
value: keep `a` when it is present and truthy, else use the default. -/
def jsOrD (x : Option JsVal) (d : JsVal) : JsVal :=
  match x with
  | some v => if jsTruthy v then v else d
  | none => d

/-- As jsOrD, but the default itself may throw (it is `none` on throw), as in
`event.venue || new URL(url).hostname.replace(...)`. -/
def jsOrElseM (x : Option JsVal) (d : Option JsVal) : Option JsVal :=
  match x with
  | some v => if jsTruthy v then some v else d
  | none => d

/-- The Event record of route.ts (`type Event`).  The TypeScript annotation
declares string fields, but the normalization performs no runtime conversion,
so the embedding keeps the raw JSON values it stores. -/
structure Event where
  venue : JsVal
  eventName : JsVal
  date : JsVal
  time : JsVal
  price : Option JsVal
  description : Option JsVal
  url : JsVal

/-- String.prototype.replace with a plain-string pattern, on char lists:
replaces the first (leftmost) occurrence of `pat` and leaves the rest
untouched; returns the input unchanged when `pat` does not occur. -/
def replaceFirstChars (pat repl : List Char) : List Char → List Char
  | [] => []
  | c :: cs =>
    if pat.isPrefixOf (c :: cs) then repl ++ (c :: cs).drop pat.length
    else c :: replaceFirstChars pat repl cs

/-- `s.replace(pat, repl)` of route.ts line 222, for string patterns. -/
def jsReplaceFirst (s pat repl : String) : String :=
  String.mk (replaceFirstChars pat.data repl.data s.data)

/-- The venue default of route.ts line 222:
`new URL(url).hostname.replace('www.', '')`.  `hostname` is the platform URL
parser, passed in as a parameter; it returns `none` when `new URL(url)`
throws, and the thrown exception propagates (outer `none`). -/
def venueDefault (hostname : String → Option String) (url : String) : Option JsVal :=
  (hostname url).map (fun h => JsVal.vstr (jsReplaceFirst h "www." ""))

/-- The normalization applied to one element of the model reply array,
route.ts lines 221-229.  Returns `none` when the embedded code would throw
(property access on a null element, or `new URL(url)` throwing while the
venue default is being computed); the caller catches that as the
surrounding try/catch does. -/
def normalizeEvent (hostname : String → Option String) (url : String)
    (e : JsVal) : Option Event := do
  let venueF ← jsGetField e "venue"
  let venue ← jsOrElseM venueF (venueDefault hostname url)
  let eventNameF ← jsGetField e "eventName"
  let nameF ← jsGetField e "name"
  let titleF ← jsGetField e "title"
  let dateF ← jsGetField e "date"
  let timeF ← jsGetField e "time"
  let priceF ← jsGetField e "price"
  let descriptionF ← jsGetField e "description"
  let urlF ← jsGetField e "url"
  pure
    { venue := venue
      eventName := jsOrD eventNameF (jsOrD nameF (jsOrD titleF (JsVal.vstr "Unknown Event")))
      date := jsOrD dateF (JsVal.vstr "TBA")
      time := jsOrD timeF (JsVal.vstr "TBA")
      price := priceF
      description := descriptionF
      url := jsOrD urlF (JsVal.vstr url) }

/-- Outcome of the OpenAI chat-completions call in extractEventsWithGPT:
either the awaited call rejects, or it resolves and
`response.choices[0].message.content` is null or a string. -/
inductive GptOutcome where
  | callFails
  | reply (content : Option String)

/-- The `parsed.events || parsed.data || []` lookup of route.ts line 218.
`none` marks a thrown TypeError (parsed is null). -/
def eventsChain (parsed : JsVal) : Option JsVal :=
  match jsGetField parsed "events" with
  | none => none
  | some evF =>
    match evF with
    | some v =>
      if jsTruthy v then some v
      else
        match jsGetField parsed "data" with
        | none => none
        | some (some w) => if jsTruthy w then some w else some (JsVal.varr [])
        | some none => some (JsVal.varr [])
    | none =>
      match jsGetField parsed "data" with
      | none => none
      | some (some w) => if jsTruthy w then some w else some (JsVal.varr [])
      | some none => some (JsVal.varr [])

/-- extractEventsWithGPT, route.ts lines 157-234, with the network call,
JSON.parse and the URL parser abstracted into parameters.  The whole body is
wrapped in try/catch returning [] on any exception, which the match arms
reproduce: a failing call, a null reply, a failed JSON.parse, a throwing
field access, a non-array events value (`.map` throws), or a throw inside
the map all yield the empty list. -/
def extractEventsWithGPT (jsonParse : String → Option JsVal)
    (hostname : String → Option String) (url : String)
    (outcome : GptOutcome) : List Event :=
  match outcome with
  | GptOutcome.callFails => []
  | GptOutcome.reply none => []
  | GptOutcome.reply (some result) =>
    match jsonParse result with
    | none => []
    | some parsed =>
      match eventsChain parsed with
      | none => []
      | some (JsVal.varr l) =>
        match l.mapM (normalizeEvent hostname url) with
        | some evs => evs
        | none => []
      | some _ => []

/-- NaN-propagating subtraction of two getTime results: `none` is NaN. -/
def jsSub : Option Int → Option Int → Option Int
  | some x, some y => some (x - y)
  | _, _ => none

/-- The value of the try block of the date comparator, route.ts lines
271-274: `new Date(a.date).getTime() - new Date(b.date).getTime()`.  The
platform Date constructor never throws; an unparseable argument produces an
invalid date whose time is NaN, so the body is total and the catch branch is
dead.  `parse` abstracts `v => new Date(v).getTime()` with `none` for NaN. -/
def dateCompareRaw (parse : JsVal → Option Int) (a b : Event) : Option Int :=
  jsSub (parse a.date) (parse b.date)

/-- The effective integer comparison used by Array.prototype.sort: per the
ECMAScript SortCompare specification a NaN comparator result is coerced to
plus zero, so the pair is treated as equal. -/
def sortCompareInt (parse : JsVal → Option Int) (a b : Event) : Int :=
  (dateCompareRaw parse a b).getD 0

/-- `allEvents.sort(comparator)` of route.ts lines 270-278.  ECMAScript
requires Array.prototype.sort to be stable; the embedding realizes it as a
stable insertion sort over the nonstrict comparator relation. -/
def sortEvents (parse : JsVal → Option Int) (l : List Event) : List Event :=
  List.insertionSort (fun a b => sortCompareInt parse a b ≤ 0) l

/-- The destructured request body `{ urls, apiKey }` of route.ts line 238.
`urls` is kept untyped because the validation inspects its shape; `apiKey`
is a JSON string when present, per the interface contract of the spec. -/
structure ScrapeRequest where
  urls : Option JsVal
  apiKey : Option String

/-- The two response shapes route.ts produces: `NextResponse.json({ error },
{ status })` — which carries no events key — and `NextResponse.json({
events })` with the default success status. -/
inductive ApiResponse where
  | errorResp (msg : String) (status : Nat)
  | eventsResp (events : List Event)

/-- The urls validation of route.ts line 240:
`!urls || !Array.isArray(urls) || urls.length === 0`. -/
def isArr : JsVal → Bool
  | JsVal.varr _ => true
  | _ => false

/-- `urls.length` for the validated value; only reached on arrays because of
short-circuiting, so the non-array value is irrelevant. -/
def arrLen : JsVal → Nat
  | JsVal.varr l => l.length
  | _ => 0

def urlsInvalid (u : Option JsVal) : Bool :=
  match u with
  | none => true
  | some v => !jsTruthy v || !isArr v || decide (arrLen v = 0)

/-- The apiKey validation of route.ts line 244: `!apiKey`. -/
def apiKeyMissing (k : Option String) : Bool :=
  match k with
  | none => true
  | some s => !jsTruthy (JsVal.vstr s)

/-- The element list of the validated urls value. -/
def getArr (u : Option JsVal) : List JsVal :=
  match u with
  | some (JsVal.varr l) => l
  | _ => []

/-- The per-URL loop of route.ts lines 252-267.  `process u` abstracts the
try block (scrapeWebsite followed by extractEventsWithGPT): `none` means the
iteration threw and was caught, contributing nothing; `some evs` means it
pushed `evs` onto the accumulator. -/
def runBatch (process : JsVal → Option (List Event)) (urls : List JsVal) : List Event :=
  urls.foldl (fun acc u =>
    match process u with
    | some evs => acc ++ evs
    | none => acc) []

/-- POST, route.ts lines 236-288: validation, the sequential per-URL loop,
the sort, and the response.  The outer try/catch (status 500 on a batch
level failure) concerns request-body parsing and is outside this model,
which starts from the already destructured body. -/
def POST (process : JsVal → Option (List Event)) (parse : JsVal → Option Int)
    (req : ScrapeRequest) : ApiResponse :=
  if urlsInvalid req.urls then ApiResponse.errorResp "No URLs provided" 400
  else if apiKeyMissing req.apiKey then ApiResponse.errorResp "OpenAI API key is required" 400
  else ApiResponse.eventsResp (sortEvents parse (runBatch process (getArr req.urls)))

/-- The structural-invalidity condition exactly as the claim states it:
`urls` missing, not an array, or an empty array, or `apiKey` missing or
empty.  Stated independently of the code path so the code can be compared
against it. -/
def requestStructurallyInvalid (req : ScrapeRequest) : Prop :=
  (req.urls = none ∨ (∀ l, req.urls ≠ some (JsVal.varr l)) ∨ req.urls = some (JsVal.varr [])) ∨
  (req.apiKey = none ∨ req.apiKey = some "")

/-- The rendered document inside `page.evaluate`, as a first-child /
next-sibling encoding of the DOM node forest: a `Dom` value is a sibling
list; `text s next` is a text node followed by its siblings; `elem` carries
the tag name and the `class`, `id` and `type` attributes (empty string when
the attribute is absent) plus the child list and the following siblings.
The document itself is the forest of top-level nodes. -/
inductive Dom where
  | nil
  | text (s : String) (next : Dom)
  | elem (tag className idAttr typeAttr : String) (children : Dom) (next : Dom)
deriving DecidableEq, Repr

/-- One element, as yielded by querySelectorAll: its tag, attributes and
child list. -/
structure Elem where
  tag : String
  className : String
  idAttr : String
  typeAttr : String
  children : Dom
deriving DecidableEq, Repr

/-- ASCII lowercasing, modelling toLowerCase on the tag and attribute
strings the shaper compares (they are ASCII in any HTML document). -/
def lowerStr (s : String) : String :=
  String.mk (s.data.map Char.toLower)

/-- Whether a char sequence occurs contiguously in another, modelling
String.prototype.includes. -/
def segOccurs (needle : List Char) : List Char → Bool
  | [] => needle.isEmpty
  | c :: cs => needle.isPrefixOf (c :: cs) || segOccurs needle cs

/-- `hay.includes(needle)` of the keyword scan. -/
def jsIncludes (hay needle : String) : Bool :=
  segOccurs needle.data hay.data

/-- Node.textContent of a node list: the concatenated data of every
descendant text node, in tree order, with no separators or trimming. -/
def textContentD : Dom → String
  | Dom.nil => ""
  | Dom.text s next => s ++ textContentD next
  | Dom.elem _ _ _ _ ch next => textContentD ch ++ textContentD next

/-- textContent of one element. -/
def textContent (e : Elem) : String :=
  textContentD e.children

/-- The tags treated as `script, style, noscript` by the removal step at
route.ts lines 71-72 (CSS tag matching is case-insensitive in HTML). -/
def isNonContentTag (t : String) : Bool :=
  ["script", "style", "noscript"].contains (lowerStr t)

/-- The removal step: `document.querySelectorAll('script, style,
noscript').forEach(el => el.remove())`.  Every script, style and noscript
element, wherever it sits, is detached from the document. -/
def clean : Dom → Dom
  | Dom.nil => Dom.nil
  | Dom.text s next => Dom.text s (clean next)
  | Dom.elem t c i ty ch next =>
    if isNonContentTag t then clean next
    else Dom.elem t c i ty (clean ch) (clean next)

/-- The block-level tag list of getTextWithStructure, route.ts line 79. -/
def blockElements : List String :=
  ["div", "p", "h1", "h2", "h3", "h4", "h5", "h6", "li", "tr", "article", "section"]

/-- String.prototype.trim: drop whitespace from both ends. -/
def jsTrim (s : String) : String :=
  String.mk (((s.data.dropWhile Char.isWhitespace).reverse.dropWhile Char.isWhitespace).reverse)

/-- getTextWithStructure, route.ts lines 75-104, iterating a child list:
nonblank text nodes contribute their trimmed text plus a space; an element
child contributes its own recursive text, wrapped in newlines when its
(lowercased) tag is block-level. -/
def gtwsChildren : Dom → String
  | Dom.nil => ""
  | Dom.text s next =>
    (if jsTrim s ≠ "" then jsTrim s ++ " " else "") ++ gtwsChildren next
  | Dom.elem t _ _ _ ch next =>
    (if blockElements.contains (lowerStr t) then "\n" else "") ++
    gtwsChildren ch ++
    (if blockElements.contains (lowerStr t) then "\n" else "") ++
    gtwsChildren next

/-- getTextWithStructure applied to one element (the code passes the
element and iterates its childNodes). -/
def getTextWithStructure (e : Elem) : String :=
  gtwsChildren e.children

/-- `document.querySelectorAll('*')`: every element of the document in tree
(pre-)order. -/
def allElems : Dom → List Elem
  | Dom.nil => []
  | Dom.text _ next => allElems next
  | Dom.elem t c i ty ch next =>
    Elem.mk t c i ty ch :: (allElems ch ++ allElems next)

/-- The fixed keyword set of route.ts line 107. -/
def eventKeywords : List String :=
  ["events", "calendar", "shows", "concerts", "schedule", "upcoming", "performances", "gigs"]

/-- The per-keyword element filter of route.ts lines 112-117: the lowercased
text content, class attribute or id attribute contains the keyword. -/
def matchesKeyword (el : Elem) (k : String) : Bool :=
  jsIncludes (lowerStr (textContent el)) k ||
  jsIncludes (lowerStr el.className) k ||
  jsIncludes (lowerStr el.idAttr) k

/-- The append guard of route.ts line 120:
`el.textContent && el.textContent.length > 50`. -/
def keepCond (el : Elem) : Bool :=
  decide (textContent el ≠ "") && decide (50 < (textContent el).length)

/-- The keyword-biased accumulator of route.ts lines 108-124: for each
keyword in order, for each matching element in document order whose text is
long enough, append its structured text followed by a blank line. -/
def eventBiasedContent (d : Dom) : String :=
  eventKeywords.foldl (fun ec k =>
    ((allElems d).filter (fun el => matchesKeyword el k)).foldl
      (fun ec2 el =>
        if keepCond el then ec2 ++ (getTextWithStructure el ++ "\n\n") else ec2)
      ec) ""

/-- `document.querySelector(tag)`: the first element with that tag in
document order. -/
def queryFirst (tag : String) (d : Dom) : Option Elem :=
  (allElems d).find? (fun e => lowerStr e.tag == tag)

/-- `document.body` (the body element, absent in a body-less document). -/
def docBody (d : Dom) : Option Elem :=
  queryFirst "body" d

/-- `document.querySelector('main') || document.body`, route.ts line 128. -/
def mainOrBody (d : Dom) : Option Elem :=
  match queryFirst "main" d with
  | some m => some m
  | none => docBody d

/-- The final value of eventContent, route.ts lines 108-130: the biased
accumulator when nonempty, else the structured text of main-or-body; `none`
marks the TypeError thrown when neither main nor body exists. -/
def pageContentBlock (d : Dom) : Option String :=
  if eventBiasedContent d = "" then Option.map getTextWithStructure (mainOrBody d)
  else some (eventBiasedContent d)

/-- An `application/ld+json` script element, as matched by the selector at
route.ts line 133 (attribute value matching is case-sensitive). -/
def isLdScript (e : Elem) : Bool :=
  lowerStr e.tag == "script" && e.typeAttr == "application/ld+json"

/-- The structured-data collection of route.ts lines 133-136: the text of
every ld+json script still in the document, with empty bodies dropped by
`.filter(Boolean)`, joined by blank lines. -/
def collectStructuredData (d : Dom) : String :=
  String.intercalate "\n\n"
    ((((allElems d).filter isLdScript).map textContent).filter (fun s => decide (s ≠ "")))

/-- The full page.evaluate closure of route.ts lines 69-139: remove
non-content nodes, build the page-content block and the structured-data
block on the resulting document, and return the labelled template.  `none`
marks a thrown exception inside the closure. -/
def shapeDocument (href : String) (d : Dom) : Option String :=
  let cleaned := clean d
  (pageContentBlock cleaned).map (fun pc =>
    "URL: " ++ href ++ "\n\nSTRUCTURED DATA:\n" ++ collectStructuredData cleaned ++
    "\n\nPAGE CONTENT:\n" ++ pc)

/-- Right-fold concatenation of a list of strings (the order-preserving
concatenation the accumulator builds). -/
def strConcatAll : List String → String
  | [] => ""
  | s :: rest => s ++ strConcatAll rest

/-- The multiset of appended chunks, stated declaratively for comparison
with the imperative accumulator: one chunk per (keyword, element) pair where
the element matches the keyword and passes the length guard, in keyword-
major document order. -/
def qualChunks (d : Dom) : List String :=
  eventKeywords.flatMap (fun k =>
    ((((allElems d).filter (fun el => matchesKeyword el k)).filter keepCond)).map
      (fun el => getTextWithStructure el ++ "\n\n"))

/-
Concrete fixtures used by the witness theorems below.
-/

/-- A Date-parse oracle for witnesses: numeric values parse, all else is
NaN. -/
def dateNumParse : JsVal → Option Int
  | JsVal.vnum n => some n
  | _ => none

/-- Sample events for witnesses. -/
def evTBA : Event :=
  Event.mk (JsVal.vstr "V") (JsVal.vstr "A") (JsVal.vstr "TBA") (JsVal.vstr "TBA")
    none none (JsVal.vstr "u")

def evNum (n : Int) : Event :=
  Event.mk (JsVal.vstr "V") (JsVal.vstr "B") (JsVal.vnum n) (JsVal.vstr "TBA")
    none none (JsVal.vstr "u")

/-- Concrete model element exercising the amended normalization: an empty
eventName falls through to name, a missing time becomes "TBA", price is
passed through and description stays absent. -/
def rawBandX : List (String × JsVal) :=
  [("eventName", JsVal.vstr ""), ("name", JsVal.vstr "Band X"),
   ("date", JsVal.vstr "March 15, 2024"), ("price", JsVal.vstr "$20")]

def evBandX : Event :=
  Event.mk (JsVal.vstr "x.net") (JsVal.vstr "Band X") (JsVal.vstr "March 15, 2024")
    (JsVal.vstr "TBA") (some (JsVal.vstr "$20")) none (JsVal.vstr "https://x.net/a")

def evBlueNote : Event :=
  Event.mk (JsVal.vstr "bluenote.net") (JsVal.vstr "Unknown Event") (JsVal.vstr "TBA")
    (JsVal.vstr "TBA") none none (JsVal.vstr "https://www.bluenote.net/newyork/")

/-- A document carrying one ld+json script (body "atype Event") and one text
node, used as the failing input for claim C7. -/
def ldExampleDoc : Dom :=
  Dom.elem "html" "" "" "" (Dom.elem "body" "" "" ""
    (Dom.elem "script" "" "" "application/ld+json" (Dom.text "atype Event" Dom.nil)
      (Dom.text "hi" Dom.nil)) Dom.nil) Dom.nil

/-- Keyword-free text of 54 characters, used by the C8 witness. -/
def longPlainText : String := "aaaa bbbb cccc dddd eeee ffff gggg hhhh iiii jjjj kkkk"

/-- A div whose class contains "calendar" but whose long text holds no
keyword. -/
def calDiv : Elem := Elem.mk "div" "calendar-grid" "" "" (Dom.text longPlainText Dom.nil)

def calDoc : Dom :=
  Dom.elem "html" "" "" "" (Dom.elem "body" "" "" ""
    (Dom.elem "div" "calendar-grid" "" "" (Dom.text longPlainText Dom.nil) Dom.nil)
    Dom.nil) Dom.nil

/-- A document in which no element matches any keyword. -/
def plainDoc : Dom :=
  Dom.elem "html" "" "" "" (Dom.elem "body" "" "" "" (Dom.text "hi" Dom.nil) Dom.nil) Dom.nil

lemma urlsInvalid_iff (u : Option JsVal) :
    urlsInvalid u = true ↔
      (u = none ∨ (∀ l, u ≠ some (JsVal.varr l)) ∨ u = some (JsVal.varr [])) := by
  cases u with
  | none => simp [urlsInvalid]
  | some v =>
    cases v with
    | varr l =>
      constructor
      · intro h
        have hl : l = [] := by
          simpa [urlsInvalid, jsTruthy, isArr, arrLen, List.length_eq_zero] using h
        exact Or.inr (Or.inr (by rw [hl]))
      · rintro (h | h | h)
        · exact absurd h (by simp)
        · exact absurd rfl (h l)
        · have hl : l = [] := by simpa using h
          simp [urlsInvalid, jsTruthy, isArr, arrLen, hl]
    | vstr s => simp [urlsInvalid, jsTruthy, isArr]
    | vnum n => simp [urlsInvalid, jsTruthy, isArr]
    | vbool b => simp [urlsInvalid, jsTruthy, isArr]
    | vnull => simp [urlsInvalid, jsTruthy, isArr]
    | vobj fs => simp [urlsInvalid, jsTruthy, isArr]

lemma apiKeyMissing_iff (k : Option String) :
    apiKeyMissing k = true ↔ (k = none ∨ k = some "") := by
  cases k with
  | none => simp [apiKeyMissing]
  | some s => simp [apiKeyMissing, jsTruthy]

/-- Claim C1: the pipeline rejects a request before any rendering exactly
when `urls` is missing, not an array, or empty, or `apiKey` is missing or
empty; the rejection is an error response with an error string and the
client-error status 400 and carries no events; when validation passes, no
validation error is raised later and the batch runs to an events
response. -/
theorem postValidationExactness (process : JsVal → Option (List Event))
    (parse : JsVal → Option Int) (req : ScrapeRequest) :
    ((∃ msg, POST process parse req = ApiResponse.errorResp msg 400) ↔
      requestStructurallyInvalid req) ∧
    (¬ requestStructurallyInvalid req →
      POST process parse req =
        ApiResponse.eventsResp (sortEvents parse (runBatch process (getArr req.urls)))) := by
  have hu := urlsInvalid_iff req.urls
  have hk := apiKeyMissing_iff req.apiKey
  unfold requestStructurallyInvalid
  cases h1 : urlsInvalid req.urls with
  | true =>
    have hpost : POST process parse req = ApiResponse.errorResp "No URLs provided" 400 := by
      simp [POST, h1]
    refine ⟨⟨fun _ => Or.inl (hu.mp h1), fun _ => ⟨_, hpost⟩⟩, fun hn => ?_⟩
    exact absurd (Or.inl (hu.mp h1)) hn
  | false =>
    cases h2 : apiKeyMissing req.apiKey with
    | true =>
      have hpost : POST process parse req =
          ApiResponse.errorResp "OpenAI API key is required" 400 := by
        simp [POST, h1, h2]
      refine ⟨⟨fun _ => Or.inr (hk.mp h2), fun _ => ⟨_, hpost⟩⟩, fun hn => ?_⟩
      exact absurd (Or.inr (hk.mp h2)) hn
    | false =>
      have hpost : POST process parse req =
          ApiResponse.eventsResp (sortEvents parse (runBatch process (getArr req.urls))) := by
        simp [POST, h1, h2]
      refine ⟨⟨fun hmsg => ?_, fun hinv => ?_⟩, fun _ => hpost⟩
      · obtain ⟨msg, hmsg⟩ := hmsg
        rw [hpost] at hmsg
        exact ApiResponse.noConfusion hmsg
      · rcases hinv with hcond | hcond
        · rw [hu.mpr hcond] at h1
          exact Bool.noConfusion h1
        · rw [hk.mpr hcond] at h2
          exact Bool.noConfusion h2

theorem postValidationExactnessWitness :
    POST (fun _ => some []) (fun _ => none)
        (ScrapeRequest.mk (some (JsVal.varr [JsVal.vnull])) (some "k")) =
      ApiResponse.eventsResp (sortEvents (fun _ => none)
        (runBatch (fun _ => some []) (getArr (some (JsVal.varr [JsVal.vnull]))))) := by
  apply (postValidationExactness (fun _ => some []) (fun _ => none)
    (ScrapeRequest.mk (some (JsVal.varr [JsVal.vnull])) (some "k"))).2
  rintro ((h | h | h) | (h | h))
  · exact Option.noConfusion h
  · exact h [JsVal.vnull] rfl
  · simp at h
  · exact Option.noConfusion h
  · simp at h

lemma runBatch_foldl_eq (process : JsVal → Option (List Event)) :
    ∀ (urls : List JsVal) (acc : List Event),
      urls.foldl (fun acc u =>
        match process u with
        | some evs => acc ++ evs
        | none => acc) acc =
      acc ++ (urls.map (fun u => (process u).getD [])).flatten := by
  intro urls
  induction urls with
  | nil => intro acc; simp
  | cons u t ih =>
    intro acc
    cases hp : process u with
    | none => simp [List.foldl_cons, hp, ih]
    | some evs => simp [List.foldl_cons, hp, ih, List.append_assoc]

/-- Claim C2: the orchestrator processes URLs sequentially in list order; a
URL whose processing throws contributes zero events while the rest continue;
the aggregate handed to sorting is the order-preserving concatenation of the
per-URL event lists, so its length is the sum of the per-URL counts. -/
theorem runBatchIsOrderedConcat (process : JsVal → Option (List Event))
    (urls : List JsVal) :
    runBatch process urls =
      (urls.map (fun u => (process u).getD [])).flatten ∧
    (runBatch process urls).length =
      (urls.map (fun u => ((process u).getD []).length)).sum := by
  have h : runBatch process urls = (urls.map (fun u => (process u).getD [])).flatten := by
    rw [runBatch]
    simpa using runBatch_foldl_eq process urls []
  refine ⟨h, ?_⟩
  rw [h, List.length_flatten, List.map_map]
  rfl

lemma jsSub_none_left (y : Option Int) : jsSub none y = none := by
  cases y <;> rfl

lemma jsSub_none_right (x : Option Int) : jsSub x none = none := by
  cases x <;> rfl

lemma dateCompareRaw_none (parse : JsVal → Option Int) (a b : Event)
    (h : parse a.date = none ∨ parse b.date = none) :
    dateCompareRaw parse a b = none := by
  unfold dateCompareRaw
  rcases h with h | h
  · rw [h]; exact jsSub_none_left _
  · rw [h]; exact jsSub_none_right _

lemma sortCompareInt_zero_of_unparseable (parse : JsVal → Option Int) (a b : Event)
    (h : parse a.date = none ∨ parse b.date = none) :
    sortCompareInt parse a b = 0 := by
  unfold sortCompareInt
  rw [dateCompareRaw_none parse a b h]
  rfl

/-- Claim C9: the date-sort comparator is total.  Building a Date from any
value never throws: an unparseable date gives NaN, subtraction propagates
NaN, and the ECMAScript SortCompare step coerces a NaN comparator result to
zero, so any pair involving an unparseable date — including a parseable
versus unparseable pair — is treated as equal, never ordered; the catch
branch has no throwing body left to catch (the embedded try-block value
`dateCompareRaw` is a total function). -/
theorem dateComparatorNanEqual (parse : JsVal → Option Int) (a b : Event)
    (h : parse a.date = none ∨ parse b.date = none) :
    dateCompareRaw parse a b = none ∧
    sortCompareInt parse a b = 0 ∧ sortCompareInt parse b a = 0 := by
  refine ⟨dateCompareRaw_none parse a b h, sortCompareInt_zero_of_unparseable parse a b h, ?_⟩
  exact sortCompareInt_zero_of_unparseable parse b a (h.symm)

theorem dateComparatorNanEqualWitness :
    dateCompareRaw dateNumParse evTBA (evNum 5) = none ∧
    sortCompareInt dateNumParse evTBA (evNum 5) = 0 ∧
    sortCompareInt dateNumParse (evNum 5) evTBA = 0 :=
  dateComparatorNanEqual dateNumParse evTBA (evNum 5) (Or.inl rfl)

/-- Claim C10: validation inspects only that `urls` is a non-empty array and
that `apiKey` is truthy.  Any non-empty array passes regardless of element
contents or types, and any non-empty apiKey string (whitespace included) is
accepted; the request then proceeds to the rendering loop. -/
theorem validationShallowAccepts (process : JsVal → Option (List Event))
    (parse : JsVal → Option Int) (l : List JsVal) (k : String)
    (hl : l ≠ []) (hk : k ≠ "") :
    POST process parse (ScrapeRequest.mk (some (JsVal.varr l)) (some k)) =
      ApiResponse.eventsResp (sortEvents parse (runBatch process l)) := by
  have h1 : urlsInvalid (some (JsVal.varr l)) = false := by
    simp [urlsInvalid, jsTruthy, isArr, arrLen, List.length_eq_zero, hl]
  have h2 : apiKeyMissing (some k) = false := by
    simp [apiKeyMissing, jsTruthy, hk]
  simp [POST, h1, h2, getArr]

theorem validationShallowAcceptsWitness :
    POST (fun _ => some []) dateNumParse
        (ScrapeRequest.mk (some (JsVal.varr [JsVal.vstr "", JsVal.vnum 5])) (some " ")) =
      ApiResponse.eventsResp (sortEvents dateNumParse
        (runBatch (fun _ => some []) [JsVal.vstr "", JsVal.vnum 5])) :=
  validationShallowAccepts (fun _ => some []) dateNumParse
    [JsVal.vstr "", JsVal.vnum 5] " " (by simp) (by decide)

/-- Claim C4: the extraction client never propagates an exception past its
boundary (its embedding is a total function into event lists), and on every
failure class — the model call failing, a null reply content, JSON.parse
failing, a throwing property access on the parsed value, or an events value
that is not an array (so `.map` throws) — it returns the empty event
sequence. -/
theorem extractReturnsEmptyOnFailure (jsonParse : String → Option JsVal)
    (hostname : String → Option String) (url : String) :
    extractEventsWithGPT jsonParse hostname url GptOutcome.callFails = [] ∧
    extractEventsWithGPT jsonParse hostname url (GptOutcome.reply none) = [] ∧
    (∀ s, jsonParse s = none →
      extractEventsWithGPT jsonParse hostname url (GptOutcome.reply (some s)) = []) ∧
    (∀ s parsed, jsonParse s = some parsed → eventsChain parsed = none →
      extractEventsWithGPT jsonParse hostname url (GptOutcome.reply (some s)) = []) ∧
    (∀ s parsed v, jsonParse s = some parsed → eventsChain parsed = some v →
      (∀ l, v ≠ JsVal.varr l) →
      extractEventsWithGPT jsonParse hostname url (GptOutcome.reply (some s)) = []) := by
  refine ⟨rfl, rfl, ?_, ?_, ?_⟩
  · intro s hs
    simp [extractEventsWithGPT, hs]
  · intro s parsed hs hchain
    simp [extractEventsWithGPT, hs, hchain]
  · intro s parsed v hs hchain hv
    simp only [extractEventsWithGPT, hs, hchain]

theorem extractReturnsEmptyOnFailureWitness :
    extractEventsWithGPT (fun _ => none) (fun _ => some "x.net") "u"
      (GptOutcome.reply (some "bad json")) = [] ∧
    extractEventsWithGPT (fun _ => some JsVal.vnull) (fun _ => some "x.net") "u"
      (GptOutcome.reply (some "null")) = [] ∧
    extractEventsWithGPT (fun _ => some (JsVal.vobj [("events", JsVal.vstr "no")]))
      (fun _ => some "x.net") "u" (GptOutcome.reply (some "s")) = [] := by
  refine ⟨?_, ?_, ?_⟩
  · exact (extractReturnsEmptyOnFailure (fun _ => none)
      (fun _ => some "x.net") "u").2.2.1 "bad json" rfl
  · exact (extractReturnsEmptyOnFailure (fun _ => some JsVal.vnull)
      (fun _ => some "x.net") "u").2.2.2.1 "null" JsVal.vnull rfl rfl
  · exact (extractReturnsEmptyOnFailure (fun _ => some (JsVal.vobj [("events", JsVal.vstr "no")]))
      (fun _ => some "x.net") "u").2.2.2.2 "s" (JsVal.vobj [("events", JsVal.vstr "no")])
      (JsVal.vstr "no") rfl rfl (fun l h => JsVal.noConfusion h)

/-- Counterexample to claim C5 as stated: an element whose `date` field is
present but empty normalizes to the "TBA" sentinel, not to the element's
value, because the `||` defaulting treats every falsy value as absent. -/
theorem normalizeDateEmptyStringCex :
    Option.map (fun ev => ev.date)
      (normalizeEvent (fun _ => some "x.net") "https://x.net/"
        (JsVal.vobj [("date", JsVal.vstr "")])) = some (JsVal.vstr "TBA") ∧
    Option.map (fun ev => ev.date)
      (normalizeEvent (fun _ => some "x.net") "https://x.net/"
        (JsVal.vobj [("date", JsVal.vstr "")])) ≠ some (JsVal.vstr "") := by
  refine ⟨rfl, ?_⟩
  intro h
  have h2 : (JsVal.vstr "TBA") = (JsVal.vstr "") := by
    injection (show some (JsVal.vstr "TBA") = some (JsVal.vstr "") from h)
  injection h2 with h3
  exact absurd h3 (by decide)

/-- Claim C5, amended: the fallbacks fire on absent or falsy (for strings,
empty) values, not only on absent ones.  For every element of the model
array (looked up under `events`, falling back to `data`, else the empty
array), the normalized event has eventName from the truthy first of
eventName, name, title, else the "Unknown Event" sentinel; date and time
equal to the value when truthy, else "TBA"; url equal to the value when
truthy, else the source URL; and price and description passed through
unchanged, absent when the model omitted them. -/
theorem normalizeFalsyDefaulting (jsonParse : String → Option JsVal)
    (hostname : String → Option String) (url s : String)
    (parsed : JsVal) (l : List JsVal) :
    (jsonParse s = some parsed → eventsChain parsed = some (JsVal.varr l) →
      extractEventsWithGPT jsonParse hostname url (GptOutcome.reply (some s)) =
        (l.mapM (normalizeEvent hostname url)).getD []) ∧
    (∀ fs ev, normalizeEvent hostname url (JsVal.vobj fs) = some ev →
      ev.eventName = jsOrD (fs.lookup "eventName")
        (jsOrD (fs.lookup "name") (jsOrD (fs.lookup "title") (JsVal.vstr "Unknown Event"))) ∧
      ev.date = jsOrD (fs.lookup "date") (JsVal.vstr "TBA") ∧
      ev.time = jsOrD (fs.lookup "time") (JsVal.vstr "TBA") ∧
      ev.url = jsOrD (fs.lookup "url") (JsVal.vstr url) ∧
      ev.price = fs.lookup "price" ∧
      ev.description = fs.lookup "description") := by
  constructor
  · intro hs hchain
    simp only [extractEventsWithGPT, hs, hchain]
    cases hm : l.mapM (normalizeEvent hostname url) with
    | none => simp [hm]
    | some evs => simp [hm]
  · intro fs ev h
    rw [normalizeEvent] at h
    simp only [jsGetField, Option.bind_eq_bind, Option.some_bind] at h
    cases hv : jsOrElseM (fs.lookup "venue") (venueDefault hostname url) with
    | none => rw [hv] at h; simp at h
    | some v =>
      rw [hv] at h
      simp only [Option.some_bind, Option.some.injEq, pure] at h
      subst h
      exact ⟨rfl, rfl, rfl, rfl, rfl, rfl⟩

theorem normalizeFalsyDefaultingWitness :
    evBandX.eventName = jsOrD (rawBandX.lookup "eventName")
      (jsOrD (rawBandX.lookup "name")
        (jsOrD (rawBandX.lookup "title") (JsVal.vstr "Unknown Event"))) ∧
    evBandX.date = jsOrD (rawBandX.lookup "date") (JsVal.vstr "TBA") ∧
    evBandX.time = jsOrD (rawBandX.lookup "time") (JsVal.vstr "TBA") ∧
    evBandX.url = jsOrD (rawBandX.lookup "url") (JsVal.vstr "https://x.net/a") ∧
    evBandX.price = rawBandX.lookup "price" ∧
    evBandX.description = rawBandX.lookup "description" :=
  (normalizeFalsyDefaulting (fun _ => none) (fun _ => some "x.net")
    "https://x.net/a" "" JsVal.vnull []).2 rawBandX evBandX rfl

/-- Counterexample to claim C6 as stated: `replace('www.', '')` removes the
first occurrence of "www." anywhere in the hostname, so a hostname whose
only occurrence is not leading is NOT left unchanged. -/
theorem venueReplaceNonLeadingCex :
    Option.map (fun ev => ev.venue)
      (normalizeEvent (fun _ => some "foo.www.net") "https://foo.www.net/"
        (JsVal.vobj [])) = some (JsVal.vstr "foo.net") ∧
    ("foo.net" : String) ≠ "foo.www.net" :=
  ⟨rfl, by decide⟩

/-- Claim C6, amended: for every model event with no venue field (or an
empty one), the normalized venue is the source hostname with the FIRST
occurrence of the substring "www." removed; when the only occurrence is the
leading one (as in www.bluenote.net) this is exactly the leading-prefix
strip, but a non-leading occurrence is removed too rather than the hostname
being left unchanged. -/
theorem venueHostnameFirstWwwRemoved (hostname : String → Option String)
    (url : String) (fs : List (String × JsVal)) (host : String) (ev : Event)
    (hh : hostname url = some host)
    (hv : fs.lookup "venue" = none ∨ fs.lookup "venue" = some (JsVal.vstr ""))
    (hn : normalizeEvent hostname url (JsVal.vobj fs) = some ev) :
    ev.venue = JsVal.vstr (jsReplaceFirst host "www." "") := by
  rw [normalizeEvent] at hn
  simp only [jsGetField, Option.bind_eq_bind, Option.some_bind] at hn
  have hd : jsOrElseM (fs.lookup "venue") (venueDefault hostname url) =
      some (JsVal.vstr (jsReplaceFirst host "www." "")) := by
    rcases hv with hv | hv <;>
      simp [hv, jsOrElseM, venueDefault, hh, jsTruthy]
  rw [hd] at hn
  simp only [Option.some_bind, Option.some.injEq, pure] at hn
  subst hn
  rfl

theorem venueHostnameFirstWwwRemovedWitness :
    evBlueNote.venue = JsVal.vstr (jsReplaceFirst "www.bluenote.net" "www." "") ∧
    jsReplaceFirst "www.bluenote.net" "www." "" = "bluenote.net" :=
  ⟨venueHostnameFirstWwwRemoved (fun _ => some "www.bluenote.net")
      "https://www.bluenote.net/newyork/" [] "www.bluenote.net" evBlueNote
      rfl (Or.inl rfl) rfl,
    by decide⟩

lemma orderedInsert_front {α : Type} (r : α → α → Prop) [DecidableRel r]
    (a : α) (h : ∀ b, r a b) : ∀ l : List α, List.orderedInsert r a l = a :: l := by
  intro l
  cases l with
  | nil => rfl
  | cons b t => simp [List.orderedInsert, h b]

lemma filter_orderedInsert_of_neg {α : Type} (r : α → α → Prop) [DecidableRel r]
    (p : α → Bool) (a : α) (ha : p a = false) :
    ∀ l : List α, (List.orderedInsert r a l).filter p = l.filter p := by
  intro l
  induction l with
  | nil => simp [List.orderedInsert, ha]
  | cons b t ih =>
    by_cases hr : r a b
    · simp [List.orderedInsert, hr, List.filter_cons, ha]
    · simp only [List.orderedInsert, if_neg hr, List.filter_cons]
      rw [ih]

lemma filter_sortEvents_unparseable (parse : JsVal → Option Int) (l : List Event) :
    (sortEvents parse l).filter (fun e => (parse e.date).isNone) =
      l.filter (fun e => (parse e.date).isNone) := by
  induction l with
  | nil => rfl
  | cons x t ih =>
    show ((List.insertionSort (fun a b => sortCompareInt parse a b ≤ 0) (x :: t))).filter _ = _
    rw [List.insertionSort]
    cases hx : parse x.date with
    | none =>
      have hfa : ∀ b, (fun a b => sortCompareInt parse a b ≤ 0) x b := by
        intro b
        rw [sortCompareInt_zero_of_unparseable parse x b (Or.inl hx)]
      rw [orderedInsert_front _ x hfa]
      rw [List.filter_cons, List.filter_cons]
      simp only [hx, Option.isNone_none, if_pos]
      exact congrArg (List.cons x) ih
    | some n =>
      have hpx : (fun e => (parse e.date).isNone) x = false := by simp [hx]
      rw [filter_orderedInsert_of_neg _ _ x hpx]
      rw [List.filter_cons]
      simp only [hpx, Bool.false_eq_true, if_neg, ite_false]
      exact ih

/-- Claim C3: the aggregate is sorted by attempting to parse each date; any
comparison touching an unparseable date is treated as equality rather than
raising; the sort never fails (it totally permutes the input); and the
events with unparseable dates keep their relative insertion order among
themselves (stability on ties). -/
theorem sortEventsStableOnUnparseable (parse : JsVal → Option Int) (l : List Event) :
    (∀ a b : Event, parse a.date = none →
      sortCompareInt parse a b = 0 ∧ sortCompareInt parse b a = 0) ∧
    (sortEvents parse l).Perm l ∧
    (sortEvents parse l).filter (fun e => (parse e.date).isNone) =
      l.filter (fun e => (parse e.date).isNone) := by
  refine ⟨?_, ?_, filter_sortEvents_unparseable parse l⟩
  · intro a b h
    exact ⟨sortCompareInt_zero_of_unparseable parse a b (Or.inl h),
      sortCompareInt_zero_of_unparseable parse b a (Or.inr h)⟩
  · unfold sortEvents
    exact List.perm_insertionSort _ l

theorem sortEventsStableOnUnparseableWitness :
    sortCompareInt dateNumParse evTBA (evNum 3) = 0 ∧
    (sortEvents dateNumParse [evNum 5, evTBA, evNum 3]).filter
        (fun e => (dateNumParse e.date).isNone) =
      ([evNum 5, evTBA, evNum 3]).filter (fun e => (dateNumParse e.date).isNone) :=
  ⟨((sortEventsStableOnUnparseable dateNumParse []).1 evTBA (evNum 3) rfl).1,
    (sortEventsStableOnUnparseable dateNumParse [evNum 5, evTBA, evNum 3]).2.2⟩

lemma allElems_clean_tags (d : Dom) :
    ∀ e ∈ allElems (clean d), isNonContentTag e.tag = false := by
  induction d with
  | nil => intro e he; simp [clean, allElems] at he
  | text s next ih =>
    intro e he
    simp only [clean, allElems] at he
    exact ih e he
  | elem t c i ty ch next ihch ihnext =>
    intro e he
    cases ht : isNonContentTag t with
    | true =>
      rw [clean, if_pos ht] at he
      exact ihnext e he
    | false =>
      rw [clean, if_neg (by simp [ht])] at he
      simp only [allElems, List.mem_cons, List.mem_append] at he
      rcases he with rfl | he | he
      · exact ht
      · exact ihch e he
      · exact ihnext e he

lemma ldScripts_clean_nil (d : Dom) :
    (allElems (clean d)).filter isLdScript = [] := by
  apply List.filter_eq_nil_iff.mpr
  intro e he
  have htag := allElems_clean_tags d e he
  intro hld
  unfold isLdScript at hld
  have hb : (lowerStr e.tag == "script") = true ∧
      (e.typeAttr == "application/ld+json") = true := by
    simpa using hld
  have heq : lowerStr e.tag = "script" := eq_of_beq hb.1
  rw [isNonContentTag, heq] at htag
  simp at htag

/-- Claim C7 (code bug): the shaper removes every script element before it
queries for `application/ld+json` scripts, so the collected structured data
is the empty string for EVERY document, and the STRUCTURED DATA block of the
output is always blank — the ld+json bodies the claim promises can never
appear.  The second conjunct shows the collection itself does find the
script body on the unremoved document, and the third evaluates the full
shaper on the failing input: the body "atype Event" is absent from the
output. -/
theorem structuredDataAlwaysEmpty :
    (∀ d : Dom, collectStructuredData (clean d) = "") ∧
    collectStructuredData ldExampleDoc = "atype Event" ∧
    shapeDocument "https://venue.test/" ldExampleDoc =
      some "URL: https://venue.test/\n\nSTRUCTURED DATA:\n\n\nPAGE CONTENT:\nhi " := by
  refine ⟨?_, by decide, by decide⟩
  intro d
  unfold collectStructuredData
  rw [ldScripts_clean_nil d]
  rfl

lemma strDataAppend (a b : String) : (a ++ b).data = a.data ++ b.data := rfl

lemma strAppendEmpty (s : String) : s ++ "" = s := by
  cases s with
  | mk d => exact congrArg String.mk (List.append_nil d)

lemma strAppendAssoc (a b c : String) : (a ++ b) ++ c = a ++ (b ++ c) := by
  cases a with
  | mk da =>
    cases b with
    | mk db =>
      cases c with
      | mk dc => exact congrArg String.mk (List.append_assoc da db dc)

lemma strConcatAll_append (a b : List String) :
    strConcatAll (a ++ b) = strConcatAll a ++ strConcatAll b := by
  induction a with
  | nil => simp [strConcatAll]
  | cons x t ih =>
    show x ++ strConcatAll (t ++ b) = (x ++ strConcatAll t) ++ strConcatAll b
    rw [ih, strAppendAssoc]

lemma isPrefixOf_append_self : ∀ (x t : List Char), x.isPrefixOf (x ++ t) = true := by
  intro x
  induction x with
  | nil => intro t; cases t <;> rfl
  | cons c cs ih =>
    intro t
    simp only [List.cons_append, List.isPrefixOf, beq_self_eq_true, Bool.true_and]
    exact ih t

lemma segOccurs_at (x : List Char) : ∀ (pre post : List Char),
    segOccurs x (pre ++ (x ++ post)) = true := by
  intro pre
  induction pre with
  | nil =>
    intro post
    show segOccurs x (x ++ post) = true
    cases x with
    | nil => cases post <;> rfl
    | cons c cs =>
      rw [List.cons_append, segOccurs]
      have hp := isPrefixOf_append_self (c :: cs) post
      rw [List.cons_append] at hp
      rw [hp, Bool.true_or]
  | cons c pre ih =>
    intro post
    rw [List.cons_append, segOccurs, ih post, Bool.or_true]

lemma jsIncludes_of_decomp (hay x pre post : String) (h : hay = pre ++ (x ++ post)) :
    jsIncludes hay x = true := by
  subst h
  unfold jsIncludes
  rw [strDataAppend, strDataAppend]
  exact segOccurs_at x.data pre.data post.data

lemma strConcatAll_mem_decomp (x : String) :
    ∀ l : List String, x ∈ l → ∃ pre post, strConcatAll l = pre ++ (x ++ post) := by
  intro l
  induction l with
  | nil => intro h; cases h
  | cons y t ih =>
    intro h
    rcases List.mem_cons.mp h with rfl | h2
    · exact ⟨"", strConcatAll t, rfl⟩
    · obtain ⟨pre, post, hp⟩ := ih h2
      refine ⟨y ++ pre, post, ?_⟩
      show y ++ strConcatAll t = (y ++ pre) ++ (x ++ post)
      rw [hp, strAppendAssoc]

lemma innerFold_eq (l : List Elem) :
    ∀ acc : String,
      l.foldl (fun ec2 el =>
        if keepCond el then ec2 ++ (getTextWithStructure el ++ "\n\n") else ec2) acc =
      acc ++ strConcatAll ((l.filter keepCond).map
        (fun el => getTextWithStructure el ++ "\n\n")) := by
  induction l with
  | nil => intro acc; simp [strConcatAll, strAppendEmpty]
  | cons el t ih =>
    intro acc
    cases hk : keepCond el with
    | true =>
      simp only [List.foldl_cons, hk, if_pos, List.filter_cons, List.map_cons, strConcatAll]
      rw [ih, strAppendAssoc]
    | false =>
      simp only [List.foldl_cons, hk, Bool.false_eq_true, if_neg, List.filter_cons, ite_false]
      exact ih acc

lemma outerFold_eq (d : Dom) (ks : List String) :
    ∀ acc : String,
      ks.foldl (fun ec k =>
        ((allElems d).filter (fun el => matchesKeyword el k)).foldl
          (fun ec2 el =>
            if keepCond el then ec2 ++ (getTextWithStructure el ++ "\n\n") else ec2) ec) acc =
      acc ++ strConcatAll (ks.flatMap (fun k =>
        ((((allElems d).filter (fun el => matchesKeyword el k)).filter keepCond)).map
          (fun el => getTextWithStructure el ++ "\n\n"))) := by
  induction ks with
  | nil => intro acc; simp [strConcatAll, strAppendEmpty]
  | cons k t ih =>
    intro acc
    simp only [List.foldl_cons, List.flatMap_cons]
    rw [innerFold_eq, ih, strConcatAll_append, strAppendAssoc]

lemma eventBiasedContent_eq_chunks (d : Dom) :
    eventBiasedContent d = strConcatAll (qualChunks d) := by
  unfold eventBiasedContent qualChunks
  rw [outerFold_eq d eventKeywords ""]
  rfl

lemma flatMap_nil_of {α β : Type} (f : α → List β) :
    ∀ l : List α, (∀ a ∈ l, f a = []) → l.flatMap f = [] := by
  intro l
  induction l with
  | nil => intro _; rfl
  | cons x t ih =>
    intro h
    simp only [List.flatMap_cons, h x (List.mem_cons_self x t), List.nil_append]
    exact ih (fun a ha => h a (List.mem_cons_of_mem x ha))

lemma length_pos_ne_empty (s : String) (h : 50 < s.length) : s ≠ "" := by
  intro he
  subst he
  exact absurd h (by decide)

/-- Claim C8: an element is appended to the event-biased accumulator once
per keyword it matches, a match being that its text content, class or id
contains the keyword case-insensitively while its text is strictly longer
than 50 characters (first conjunct: the accumulator equals the
concatenation of exactly those chunks, keyword-major, in document order);
in particular an element whose class contains "calendar" is included even
when its text holds no keyword (second conjunct); and when no element
qualifies at all the page-content block falls back to the structured text
of the main element, or of the document body when no main exists (third
conjunct, via mainOrBody). -/
theorem keywordBiasingCharacterization (d : Dom) :
    eventBiasedContent d = strConcatAll (qualChunks d) ∧
    (∀ el, el ∈ allElems d → jsIncludes (lowerStr el.className) "calendar" = true →
      50 < (textContent el).length →
      jsIncludes (eventBiasedContent d) (getTextWithStructure el ++ "\n\n") = true) ∧
    ((∀ k, k ∈ eventKeywords → ∀ el, el ∈ allElems d →
        ¬(matchesKeyword el k = true ∧ 50 < (textContent el).length)) →
      pageContentBlock d = Option.map getTextWithStructure (mainOrBody d)) := by
  refine ⟨eventBiasedContent_eq_chunks d, ?_, ?_⟩
  · intro el hel hclass hlen
    have hkeep : keepCond el = true := by
      unfold keepCond
      simp [length_pos_ne_empty _ hlen, hlen]
    have hmatch : matchesKeyword el "calendar" = true := by
      unfold matchesKeyword
      simp [hclass]
    have hchunk : (getTextWithStructure el ++ "\n\n") ∈ qualChunks d := by
      unfold qualChunks
      apply List.mem_flatMap.mpr
      refine ⟨"calendar", by simp [eventKeywords], ?_⟩
      apply List.mem_map.mpr
      exact ⟨el, List.mem_filter.mpr ⟨List.mem_filter.mpr ⟨hel, hmatch⟩, hkeep⟩, rfl⟩
    obtain ⟨pre, post, hdec⟩ := strConcatAll_mem_decomp _ _ hchunk
    rw [eventBiasedContent_eq_chunks d]
    exact jsIncludes_of_decomp _ _ pre post hdec
  · intro hno
    have hq : qualChunks d = [] := by
      unfold qualChunks
      apply flatMap_nil_of
      intro k hk
      have : ((allElems d).filter (fun el => matchesKeyword el k)).filter keepCond = [] := by
        apply List.filter_eq_nil_iff.mpr
        intro el hel
        have hel2 := List.mem_filter.mp hel
        intro hkeep
        have hkeep2 : textContent el ≠ "" ∧ 50 < (textContent el).length := by
          simpa [keepCond] using hkeep
        exact hno k hk el hel2.1 ⟨hel2.2, hkeep2.2⟩
      rw [this]
      rfl
    have hec : eventBiasedContent d = "" := by
      rw [eventBiasedContent_eq_chunks d, hq]
      rfl
    unfold pageContentBlock
    rw [if_pos hec]

theorem keywordBiasingCharacterizationWitness :
    jsIncludes (eventBiasedContent calDoc) (getTextWithStructure calDiv ++ "\n\n") = true ∧
    pageContentBlock plainDoc = Option.map getTextWithStructure (mainOrBody plainDoc) := by
  constructor
  · exact (keywordBiasingCharacterization calDoc).2.1 calDiv (by decide) (by decide) (by decide)
  · exact (keywordBiasingCharacterization plainDoc).2.2 (by decide)
